import Mathlib

/-!
Verification of the Signal & Backtest Engine of the Transplier-program
repository against its natural-language specification.

The backtester, trade ledger and the tools' performance metrics
(src/src/backtesting/backtester.py, src/tools/walk_forward_test.py,
src/tools/param_optimizer.py, src/tools/monthly_backtest_analysis.py)
perform only rational arithmetic, so they are embedded over `ℚ` and are
fully executable.  The harmonic strategies
(src/src/strategies/fourier_strategy.py, src/fourier_enhanced.py) use
`np.cos` and `np.arctan2`, so that tier is embedded over `ℝ`.
-/

/-- Trading signal kinds, mirroring `Signal` in
src/src/deriv_api/strategy_interface.py. -/
inductive Signal where
  | BUY
  | SELL
  | HOLD
  | CLOSE
deriving DecidableEq, Repr

namespace BT

/-- One OHLC candle as the backtester hands it to a strategy:
the dict built inside `Backtester.run`. -/
structure Candle where
  open_ : ℚ
  high : ℚ
  low : ℚ
  close : ℚ
  epoch : ℤ
deriving DecidableEq, Repr

/-- A trade signal as consumed by the backtester (`TradeSignal` in
strategy_interface.py).  The open `metadata` map is not consumed by
`Backtester.run`, so it is omitted here. -/
structure TradeSig where
  signal : Signal
  strength : ℚ := 0
  stop_loss : Option ℚ := none
  take_profit : Option ℚ := none
deriving DecidableEq, Repr

/-- Python `int()` conversion of a rational number: truncation toward
zero, used for `duration_seconds = int(exit_time - entry_time)`. -/
def ratTrunc (q : ℚ) : ℤ :=
  if 0 ≤ q then ⌊q⌋ else ⌈q⌉

/-- Single trade record: the `Trade` dataclass of
src/src/backtesting/backtester.py. -/
structure Trade where
  entry_time : ℚ
  entry_price : ℚ
  entry_signal : String
  stake : ℚ
  exit_time : Option ℚ := none
  exit_price : Option ℚ := none
  exit_reason : Option String := none
  pnl : Option ℚ := none
  pnl_pct : Option ℚ := none
  duration_seconds : Option ℤ := none
deriving DecidableEq, Repr

/-- `Trade.close`: close the trade and compute PnL using stake as
notional.  Mirrors the method line for line: the exit bookkeeping
fields are written first; a falsy (zero) entry price short-circuits to
`pnl = pnl_pct = 0.0`; otherwise `quantity = stake / entry_price` and
the BUY branch takes `price_change * quantity`, the else (SELL/SHORT)
branch its negation. -/
def Trade.close (t : Trade) (exit_time exit_price : ℚ) (reason : String) : Trade :=
  let t := { t with
    exit_time := some exit_time
    exit_price := some exit_price
    exit_reason := some reason
    duration_seconds := some (ratTrunc (exit_time - t.entry_time)) }
  if t.entry_price = 0 then
    { t with pnl := some 0, pnl_pct := some 0 }
  else
    let price_change := exit_price - t.entry_price
    let ret_pct := price_change / t.entry_price
    let quantity := t.stake / t.entry_price
    if t.entry_signal = "BUY" then
      { t with pnl := some (price_change * quantity), pnl_pct := some (ret_pct * 100) }
    else
      { t with pnl := some (-price_change * quantity), pnl_pct := some (-ret_pct * 100) }

end BT

/-- C4: for a trade closed with nonzero entry price P0, stake S and exit
price P1, a BUY entry yields pnl = S*(P1-P0)/P0 and pnl_pct =
100*(P1-P0)/P0, and any other entry signal (SELL) yields pnl =
S*(P0-P1)/P0 and pnl_pct = 100*(P0-P1)/P0. -/
theorem trade_close_pnl_exact (t : BT.Trade) (e p : ℚ) (r : String)
    (h : t.entry_price ≠ 0) :
    (t.close e p r).pnl =
      some (if t.entry_signal = "BUY"
            then t.stake * (p - t.entry_price) / t.entry_price
            else t.stake * (t.entry_price - p) / t.entry_price) ∧
    (t.close e p r).pnl_pct =
      some (if t.entry_signal = "BUY"
            then 100 * (p - t.entry_price) / t.entry_price
            else 100 * (t.entry_price - p) / t.entry_price) := by
  unfold BT.Trade.close
  simp only [h, if_false]
  by_cases hb : t.entry_signal = "BUY" <;>
    refine ⟨?_, ?_⟩ <;>
    simp only [hb, if_true, if_false, ite_true, ite_false, Option.some.injEq] <;>
    field_simp <;> ring

/-- Witness for C4, the spec's Scenario C: a BUY entered at price 100
with stake 30 and closed at price 103 yields pnl = 9/10 and
pnl_pct = 3. -/
theorem trade_close_pnl_exact_witness :
    ({ entry_time := 50, entry_price := 100, entry_signal := "BUY",
       stake := 30 : BT.Trade }.close 60 103 "Signal").pnl = some (9/10) ∧
    ({ entry_time := 50, entry_price := 100, entry_signal := "BUY",
       stake := 30 : BT.Trade }.close 60 103 "Signal").pnl_pct = some 3 := by
  have h := trade_close_pnl_exact
    { entry_time := 50, entry_price := 100, entry_signal := "BUY", stake := 30 }
    60 103 "Signal" (by norm_num)
  refine ⟨h.1.trans ?_, h.2.trans ?_⟩ <;> norm_num

/-- C10: closing a trade whose entry price is zero performs no division:
pnl and pnl_pct are set to 0 and the exit bookkeeping fields
(exit_time, exit_price, exit_reason, duration_seconds) are still
recorded. -/
theorem trade_close_zero_entry_total (t : BT.Trade) (e p : ℚ) (r : String)
    (h : t.entry_price = 0) :
    (t.close e p r).pnl = some 0 ∧
    (t.close e p r).pnl_pct = some 0 ∧
    (t.close e p r).exit_time = some e ∧
    (t.close e p r).exit_price = some p ∧
    (t.close e p r).exit_reason = some r ∧
    (t.close e p r).duration_seconds = some (BT.ratTrunc (e - t.entry_time)) := by
  unfold BT.Trade.close
  simp [h]

/-- Witness for C10: a concrete zero-entry-price trade closes without a
division error and records every exit field. -/
theorem trade_close_zero_entry_total_witness :
    ({ entry_time := 5, entry_price := 0, entry_signal := "BUY",
       stake := 30 : BT.Trade }.close 9 42 "Signal").pnl = some 0 ∧
    ({ entry_time := 5, entry_price := 0, entry_signal := "BUY",
       stake := 30 : BT.Trade }.close 9 42 "Signal").pnl_pct = some 0 ∧
    ({ entry_time := 5, entry_price := 0, entry_signal := "BUY",
       stake := 30 : BT.Trade }.close 9 42 "Signal").exit_time = some 9 ∧
    ({ entry_time := 5, entry_price := 0, entry_signal := "BUY",
       stake := 30 : BT.Trade }.close 9 42 "Signal").exit_price = some 42 ∧
    ({ entry_time := 5, entry_price := 0, entry_signal := "BUY",
       stake := 30 : BT.Trade }.close 9 42 "Signal").exit_reason = some "Signal" ∧
    ({ entry_time := 5, entry_price := 0, entry_signal := "BUY",
       stake := 30 : BT.Trade }.close 9 42 "Signal").duration_seconds = some 4 := by
  have h := trade_close_zero_entry_total
    { entry_time := 5, entry_price := 0, entry_signal := "BUY", stake := 30 }
    9 42 "Signal" rfl
  exact ⟨h.1, h.2.1, h.2.2.1, h.2.2.2.1, h.2.2.2.2.1, by
    rw [h.2.2.2.2.2]; norm_num [BT.ratTrunc]⟩

namespace BT

/-- One DataFrame row as seen by `Backtester.run`.  A field is `none`
when it is missing or unparsable (Python `int(...)` / `float(...)` /
`pd.to_datetime(...)` would raise). -/
structure Row where
  time : Option ℤ := none
  datetime : Option ℤ := none
  open_ : Option ℚ := none
  high : Option ℚ := none
  low : Option ℚ := none
  close : Option ℚ := none
deriving DecidableEq, Repr

/-- The candle DataFrame: whether a `time` column exists (checked once
before the loop), and the rows. -/
structure Df where
  hasTime : Bool := true
  rows : List Row
deriving DecidableEq, Repr

/-- Time-field precedence of `Backtester.run`: the `time` column when
present (numeric or parsed), otherwise the `datetime` column. -/
def getEpoch (df : Df) (r : Row) : Option ℤ :=
  if df.hasTime then r.time else r.datetime

/-- The candle dict built at the top of the per-candle loop body, BEFORE
the `try` block: epoch plus the four float-converted price fields.  Any
missing or unparsable field makes the conversion raise, i.e. `none`. -/
def parseCandle (df : Df) (r : Row) : Option Candle :=
  match getEpoch df r with
  | none => none
  | some e =>
    match r.open_ with
    | none => none
    | some o =>
      match r.high with
      | none => none
      | some h =>
        match r.low with
        | none => none
        | some l =>
          match r.close with
          | none => none
          | some c => some { open_ := o, high := h, low := l, close := c, epoch := e }

/-- The position dict `Backtester._enter_trade` passes to
`strategy.set_position`. -/
structure BPos where
  ptype : String
  entry_price : ℚ
  entry_time : ℤ
  stop_loss : Option ℚ := none
  take_profit : Option ℚ := none
deriving DecidableEq, Repr

/-- Strategy state as the backtester sees it: the strategy's own inner
state plus the `self.position` attribute managed by the base class
`TradingStrategy`.  -/
structure SState (σ : Type) where
  inner : σ
  position : Option BPos := none

/-- `TradingStrategy.set_position` of strategy_interface.py: stores the
position dict; not overridden by any strategy in the repository. -/
def setPosition {σ : Type} (s : SState σ) (p : Option BPos) : SState σ :=
  { s with position := p }

/-- The optional higher-timeframe candle dict `{'close': ...}`. -/
structure MtfCandle where
  close : ℚ
deriving DecidableEq, Repr

/-- The `TradingStrategy` interface as consumed by `Backtester.run`:
`update` and `get_signal`.  `update` may mutate any strategy state
(including `self.position`), `get_signal` is a pure read. -/
structure Strategy (σ : Type) where
  update : SState σ → Candle → Option MtfCandle → SState σ
  getSignal : SState σ → TradeSig

/-- Backtester constructor arguments. -/
structure Config where
  initial_balance : ℚ := 1000
  stake_per_trade : ℚ := 10

/-- Mutable state of a `Backtester` during `run`. -/
structure BtState (σ : Type) where
  strat : SState σ
  currentTrade : Option Trade := none
  closedTrades : List Trade := []
  equity : List ℚ
  timestamps : List ℤ := []
  runningPnl : ℚ := 0

/-- `Backtester._enter_trade`: record the new trade at the candle close
and reflect the position (with optional stop/target from the signal)
into the strategy via `set_position`. -/
def enterTrade {σ : Type} (cfg : Config) (st : BtState σ) (c : Candle)
    (signalType : String) (sig : TradeSig) : BtState σ :=
  let entry_price := c.close
  let pos : BPos :=
    { ptype := if signalType = "BUY" then "LONG" else "SHORT"
      entry_price := entry_price
      entry_time := c.epoch
      stop_loss := sig.stop_loss
      take_profit := sig.take_profit }
  { st with
    currentTrade := some { entry_time := (c.epoch : ℚ), entry_price := entry_price,
                           entry_signal := signalType, stake := cfg.stake_per_trade }
    strat := setPosition st.strat (some pos) }

/-- `Backtester._close_trade`: a no-op when nothing is open; otherwise
close the trade record, add its pnl to the running pnl, append it to
the closed-trade history, clear the strategy position
(`set_position(None)`) and clear the current trade. -/
def closeTrade {σ : Type} (st : BtState σ) (epoch : ℤ) (exit_price : ℚ)
    (reason : String) : BtState σ :=
  match st.currentTrade with
  | none => st
  | some t =>
    let t := t.close (epoch : ℚ) exit_price reason
    { st with
      runningPnl := st.runningPnl + t.pnl.getD 0
      closedTrades := st.closedTrades ++ [t]
      strat := setPosition st.strat none
      currentTrade := none }

/-- The body of the per-candle `try` block after the mtf lookup: update
the strategy, get the signal, dispatch BUY/SELL to `_enter_trade` only
when no trade is open and CLOSE to `_close_trade` only when one is
open, then append the equity point and the timestamp. -/
def processCandle {σ : Type} (strat : Strategy σ) (cfg : Config) (st : BtState σ)
    (c : Candle) (mtfC : Option MtfCandle) : BtState σ :=
  let s1 := { st with strat := strat.update st.strat c mtfC }
  let sig := strat.getSignal s1.strat
  let s2 :=
    if sig.signal = Signal.BUY ∧ s1.currentTrade = none then
      enterTrade cfg s1 c "BUY" sig
    else if sig.signal = Signal.SELL ∧ s1.currentTrade = none then
      enterTrade cfg s1 c "SELL" sig
    else if sig.signal = Signal.CLOSE ∧ s1.currentTrade ≠ none then
      closeTrade s1 c.epoch c.close "Signal"
    else s1
  { s2 with equity := s2.equity ++ [cfg.initial_balance + s2.runningPnl],
            timestamps := s2.timestamps ++ [c.epoch] }

/-- `mtf_series.iloc[idx]` followed by the `pd.notna` check, performed
INSIDE the `try` block: positional access out of range raises (caught by
the handler); a NaN entry yields no mtf candle. -/
def mtfAccess (mtf : Option (List (Option ℚ))) (idx : ℕ) :
    Except Unit (Option MtfCandle) :=
  match mtf with
  | none => Except.ok none
  | some l =>
    match l.get? idx with
    | none => Except.error ()
    | some none => Except.ok none
    | some (some q) => Except.ok (some ⟨q⟩)

/-- One iteration of the candle loop.  Candle parsing happens before
the `try` block, so a parse failure propagates and aborts the run; a
fault inside the `try` block (the mtf lookup) is caught and the candle
skipped with the state unchanged. -/
def stepRow {σ : Type} (strat : Strategy σ) (cfg : Config) (df : Df)
    (mtf : Option (List (Option ℚ))) (st : BtState σ) (idx : ℕ) (r : Row) :
    Except Unit (BtState σ) :=
  match parseCandle df r with
  | none => Except.error ()
  | some c =>
    match mtfAccess mtf idx with
    | Except.error _ => Except.ok st
    | Except.ok mtfC => Except.ok (processCandle strat cfg st c mtfC)

/-- Backtester state right after the reset at the top of `run`:
equity curve seeded with the initial balance, strategy reset (which
also clears its position). -/
def initBtState {σ : Type} (cfg : Config) (s0 : σ) : BtState σ :=
  { strat := { inner := s0, position := none }, equity := [cfg.initial_balance] }

/-- The candle loop of `Backtester.run`, iterating `stepRow` over the
enumerated rows; an error from a step (an exception outside the `try`
block) propagates and aborts the loop. -/
def runLoopAux {σ : Type} (strat : Strategy σ) (cfg : Config) (df : Df)
    (mtf : Option (List (Option ℚ))) :
    BtState σ → List (ℕ × Row) → Except Unit (BtState σ)
  | st, [] => Except.ok st
  | st, p :: t =>
    match stepRow strat cfg df mtf st p.1 p.2 with
    | Except.error e => Except.error e
    | Except.ok st' => runLoopAux strat cfg df mtf st' t

/-- The candle loop of `Backtester.run`. -/
def runLoop {σ : Type} (strat : Strategy σ) (cfg : Config) (s0 : σ) (df : Df)
    (mtf : Option (List (Option ℚ))) : Except Unit (BtState σ) :=
  runLoopAux strat cfg df mtf (initBtState cfg s0) df.rows.enum

/-- Epoch and close price of `df.iloc[-1]`, parsed exactly as the
force-close epilogue of `run` parses them. -/
def lastRowParse (df : Df) : Option (ℤ × ℚ) :=
  match df.rows.getLast? with
  | none => none
  | some r =>
    match getEpoch df r with
    | none => none
    | some e =>
      match r.close with
      | none => none
      | some c => some (e, c)

/-- One step of the drawdown loop in `Backtester._calculate_metrics`:
raise the peak, compute the percentage drawdown (0 when the peak is not
positive), keep the maximum. -/
def ddStep (acc : ℚ × ℚ) (e : ℚ) : ℚ × ℚ :=
  let peak := if acc.1 < e then e else acc.1
  let dd := if 0 < peak then (peak - e) / peak * 100 else 0
  (peak, if acc.2 < dd then dd else acc.2)

/-- Max drawdown over the equity curve as computed by
`Backtester._calculate_metrics`: peak seeded with the first equity
point (0 for an empty curve), max-drawdown seeded with 0. -/
def maxDrawdown (eqc : List ℚ) : ℚ :=
  (eqc.foldl ddStep (eqc.headD 0, 0)).2

/-- Python `max(l) if l else 0.0`. -/
def maxD (l : List ℚ) : ℚ :=
  match l with
  | [] => 0
  | x :: xs => xs.foldl max x

/-- Python `min(l) if l else 0.0`. -/
def minD (l : List ℚ) : ℚ :=
  match l with
  | [] => 0
  | x :: xs => xs.foldl min x

/-- Truthiness test `t.pnl and t.pnl > 0` of the winning-trade count. -/
def pnlPos (t : Trade) : Bool :=
  match t.pnl with
  | some v => decide (0 < v)
  | none => false

/-- Truthiness test `t.pnl and t.pnl < 0`. -/
def pnlNeg (t : Trade) : Bool :=
  match t.pnl with
  | some v => decide (v < 0)
  | none => false

/-- The `BacktestResult` record filled by `_calculate_metrics`. -/
structure BtResult where
  total_trades : ℕ
  winning_trades : ℕ
  losing_trades : ℤ
  win_rate : ℚ
  total_pnl : ℚ
  avg_pnl_per_trade : ℚ
  max_profit : ℚ
  max_loss : ℚ
  largest_win : ℚ
  largest_loss : ℚ
  avg_trade_duration_sec : ℚ
  max_drawdown : ℚ
  trades : List Trade
  equity_curve : List ℚ
  timestamps : List ℤ
deriving DecidableEq, Repr

/-- `Backtester._calculate_metrics`, field by field. -/
def calcMetrics {σ : Type} (st : BtState σ) : BtResult :=
  let trades := st.closedTrades
  let total := trades.length
  let winning := (trades.filter pnlPos).length
  let pnls := trades.filterMap (·.pnl)
  let total_pnl := pnls.sum
  let wins := (trades.filter pnlPos).filterMap (·.pnl)
  let losses := (trades.filter pnlNeg).filterMap (·.pnl)
  let durations := (trades.filterMap (·.duration_seconds)).filter (fun d => decide (d ≠ 0))
  { total_trades := total
    winning_trades := winning
    losing_trades := (total : ℤ) - winning
    win_rate := if total ≠ 0 then (winning : ℚ) / (total : ℚ) * 100 else 0
    total_pnl := total_pnl
    avg_pnl_per_trade := if 0 < total then total_pnl / (total : ℚ) else 0
    max_profit := maxD pnls
    max_loss := minD pnls
    largest_win := maxD wins
    largest_loss := minD losses
    avg_trade_duration_sec :=
      if durations.length ≠ 0 then ((durations.map (fun d => (d : ℚ))).sum) / (durations.length : ℚ) else 0
    max_drawdown := maxDrawdown st.equity
    trades := trades
    equity_curve := st.equity
    timestamps := st.timestamps }

/-- `Backtester.run`: reset, candle loop, force-close of any still-open
trade at the last candle's close with reason "End of backtest", then
metrics.  A parse failure anywhere (the loop or the epilogue) aborts
the whole run. -/
def run {σ : Type} (strat : Strategy σ) (cfg : Config) (s0 : σ) (df : Df)
    (mtf : Option (List (Option ℚ))) : Except Unit BtResult :=
  match runLoop strat cfg s0 df mtf with
  | Except.error e => Except.error e
  | Except.ok st =>
    match st.currentTrade with
    | none => Except.ok (calcMetrics st)
    | some _ =>
      match lastRowParse df with
      | none => Except.error ()
      | some (e, p) => Except.ok (calcMetrics (closeTrade st e p "End of backtest"))

end BT

namespace BT

/-- A loop step succeeds (possibly skipping its candle) whenever the
row's candle parses. -/
theorem stepRow_ok_of_parse {σ : Type} (strat : Strategy σ) (cfg : Config) (df : Df)
    (mtf : Option (List (Option ℚ))) (st : BtState σ) (idx : ℕ) (r : Row)
    (h : (parseCandle df r).isSome = true) :
    ∃ st', stepRow strat cfg df mtf st idx r = Except.ok st' := by
  unfold stepRow
  cases hp : parseCandle df r with
  | none => rw [hp] at h; simp at h
  | some c =>
    cases hm : mtfAccess mtf idx with
    | error e => exact ⟨st, rfl⟩
    | ok mtfC => exact ⟨processCandle strat cfg st c mtfC, rfl⟩

/-- A loop step raises (outside the `try` block) exactly when the row's
candle fails to parse. -/
theorem stepRow_error_of_no_parse {σ : Type} (strat : Strategy σ) (cfg : Config) (df : Df)
    (mtf : Option (List (Option ℚ))) (st : BtState σ) (idx : ℕ) (r : Row)
    (h : parseCandle df r = none) :
    stepRow strat cfg df mtf st idx r = Except.error () := by
  unfold stepRow; rw [h]

/-- The candle loop completes iff every remaining row parses. -/
theorem runLoopAux_ok_iff {σ : Type} (strat : Strategy σ) (cfg : Config) (df : Df)
    (mtf : Option (List (Option ℚ))) (l : List (ℕ × Row)) (st : BtState σ) :
    (∃ st', runLoopAux strat cfg df mtf st l = Except.ok st') ↔
      ∀ p ∈ l, (parseCandle df p.2).isSome = true := by
  induction l generalizing st with
  | nil => simp [runLoopAux]
  | cons p t ih =>
    rw [List.forall_mem_cons]
    cases hp : parseCandle df p.2 with
    | none =>
      have hstep := stepRow_error_of_no_parse strat cfg df mtf st p.1 p.2 hp
      simp [runLoopAux, hstep, hp]
    | some c =>
      obtain ⟨st1, hstep⟩ := stepRow_ok_of_parse strat cfg df mtf st p.1 p.2 (by rw [hp]; rfl)
      simp [runLoopAux, hstep, hp, ih st1]

/-- A row whose candle parses has in particular a parsed epoch and a
parsed close price. -/
theorem parseCandle_fields (df : Df) (r : Row)
    (h : (parseCandle df r).isSome = true) :
    ∃ e c, getEpoch df r = some e ∧ r.close = some c := by
  unfold parseCandle at h
  cases he : getEpoch df r <;> rw [he] at h
  · simp at h
  · cases ho : r.open_ <;> rw [ho] at h
    · simp at h
    · cases hh : r.high <;> rw [hh] at h
      · simp at h
      · cases hl : r.low <;> rw [hl] at h
        · simp at h
        · cases hc : r.close <;> rw [hc] at h
          · simp at h
          · exact ⟨_, _, rfl, rfl⟩

/-- A parsed row has a parsed epoch and close, so the force-close
epilogue's own parse succeeds on it. -/
theorem lastRowParse_of_parse (df : Df) (r : Row) (hr : df.rows.getLast? = some r)
    (h : (parseCandle df r).isSome = true) :
    ∃ e c, lastRowParse df = some (e, c) := by
  obtain ⟨e, c, he, hc⟩ := parseCandle_fields df r h
  exact ⟨e, c, by simp only [lastRowParse, hr, he, hc]⟩

end BT

/-- C2 (amended): `Backtester.run` catches and skips faults raised
inside the per-candle `try` block (such as the mtf lookup), but the
time/price field parsing happens before the `try` block, so the run
produces a report precisely when every row's time and price fields
parse; a single malformed row aborts the whole replay. -/
theorem run_ok_iff_all_rows_parse {σ : Type} (strat : BT.Strategy σ) (cfg : BT.Config)
    (s0 : σ) (df : BT.Df) (mtf : Option (List (Option ℚ))) :
    (∃ res, BT.run strat cfg s0 df mtf = Except.ok res) ↔
      ∀ r ∈ df.rows, (BT.parseCandle df r).isSome = true := by
  constructor
  · rintro ⟨res, hres⟩
    unfold BT.run at hres
    cases hloop : BT.runLoop strat cfg s0 df mtf with
    | error e => rw [hloop] at hres; simp at hres
    | ok st =>
      have hok : ∃ st', BT.runLoopAux strat cfg df mtf (BT.initBtState cfg s0) df.rows.enum
          = Except.ok st' := ⟨st, hloop⟩
      have hall := (BT.runLoopAux_ok_iff strat cfg df mtf df.rows.enum
        (BT.initBtState cfg s0)).mp hok
      intro r hrmem
      obtain ⟨i, hi⟩ := List.mem_iff_getElem?.mp hrmem
      exact hall (i, r) (List.mem_enum_iff_getElem?.mpr hi)
  · intro hall
    obtain ⟨st, hst⟩ := (BT.runLoopAux_ok_iff strat cfg df mtf df.rows.enum
        (BT.initBtState cfg s0)).mpr
      (fun p hp => hall p.2 (by
        have := List.mem_enum_iff_getElem?.mp hp
        exact List.getElem?_mem this))
    cases hct : st.currentTrade with
    | none =>
      refine ⟨BT.calcMetrics st, ?_⟩
      simp only [BT.run, BT.runLoop, hst, hct]
    | some t =>
      have hne : df.rows ≠ [] := by
        intro hnil
        rw [hnil] at hst
        simp [BT.runLoopAux] at hst
        rw [← hst] at hct
        simp [BT.initBtState] at hct
      obtain ⟨r, hr⟩ : ∃ r, df.rows.getLast? = some r := by
        cases hgl : df.rows.getLast? with
        | none => exact absurd (List.getLast?_eq_none_iff.mp hgl) hne
        | some r => exact ⟨r, rfl⟩
      have hrmem : r ∈ df.rows := by
        obtain ⟨hne2, heq⟩ := List.mem_getLast?_eq_getLast (l := df.rows) (x := r) hr
        rw [heq]
        exact List.getLast_mem hne2
      obtain ⟨e, c, hlast⟩ := BT.lastRowParse_of_parse df r hr (hall r hrmem)
      refine ⟨BT.calcMetrics (BT.closeTrade st e c "End of backtest"), ?_⟩
      simp only [BT.run, BT.runLoop, hst, hct, hlast]

/-- A trivial strategy that never signals; used to exhibit concrete
runs of the backtester. -/
def holdStrategy : BT.Strategy Unit :=
  { update := fun s _ _ => s
    getSignal := fun _ => { signal := Signal.HOLD } }

/-- A DataFrame whose second row has an unparsable close price. -/
def c2BadDf : BT.Df :=
  { hasTime := true
    rows := [
      { time := some 1, open_ := some 1, high := some 1, low := some 1, close := some 1 },
      { time := some 2, open_ := some 1, high := some 1, low := some 1, close := none }] }

/-- Counterexample to C2 as stated: a single candle row with an
unparsable close price makes `Backtester.run` abort with an error
instead of skipping the candle and producing a report. -/
theorem run_aborts_on_unparsable_close :
    BT.run holdStrategy {} () c2BadDf none = Except.error () := by rfl

/-- C7: with a trade already open, processing one candle never opens a
second trade: either the emitted signal is CLOSE and the step closes
the open trade, clearing both the backtester's current trade and the
strategy's position reference, or the open trade is carried over
unchanged and the closed-trade history is untouched. -/
theorem backtester_single_open_position {σ : Type} (strat : BT.Strategy σ)
    (cfg : BT.Config) (st : BT.BtState σ) (c : BT.Candle)
    (mtfC : Option BT.MtfCandle) (t : BT.Trade)
    (h : st.currentTrade = some t) :
    ((strat.getSignal (strat.update st.strat c mtfC)).signal = Signal.CLOSE ∧
      (BT.processCandle strat cfg st c mtfC).currentTrade = none ∧
      (BT.processCandle strat cfg st c mtfC).strat.position = none ∧
      (BT.processCandle strat cfg st c mtfC).closedTrades
        = st.closedTrades ++ [t.close (c.epoch : ℚ) c.close "Signal"]) ∨
    ((strat.getSignal (strat.update st.strat c mtfC)).signal ≠ Signal.CLOSE ∧
      (BT.processCandle strat cfg st c mtfC).currentTrade = some t ∧
      (BT.processCandle strat cfg st c mtfC).closedTrades = st.closedTrades) := by
  by_cases hs : (strat.getSignal (strat.update st.strat c mtfC)).signal = Signal.CLOSE
  · left
    refine ⟨hs, ?_, ?_, ?_⟩ <;>
      simp [BT.processCandle, BT.closeTrade, BT.setPosition, h, hs]
  · right
    refine ⟨hs, ?_, ?_⟩ <;>
      simp [BT.processCandle, BT.closeTrade, BT.setPosition, h, hs]

/-- A strategy that always signals CLOSE; used to witness the
close path of the dispatch. -/
def closeAlwaysStrat : BT.Strategy Unit :=
  { update := fun s _ _ => s
    getSignal := fun _ => { signal := Signal.CLOSE } }

/-- An open trade used by concrete backtester states. -/
def c7Trade : BT.Trade :=
  { entry_time := 1, entry_price := 100, entry_signal := "BUY", stake := 10 }

/-- A backtester state with the trade `c7Trade` open. -/
def c7St : BT.BtState Unit :=
  { strat := { inner := ()
               position := some { ptype := "LONG", entry_price := 100, entry_time := 1 } }
    currentTrade := some c7Trade
    equity := [1000] }

/-- The candle on which the witness state is stepped. -/
def c7Candle : BT.Candle :=
  { open_ := 101, high := 101, low := 101, close := 101, epoch := 2 }

/-- Witness for C7 at a concrete strategy, state and candle. -/
theorem backtester_single_open_position_witness :
    ((closeAlwaysStrat.getSignal (closeAlwaysStrat.update c7St.strat c7Candle none)).signal
        = Signal.CLOSE ∧
      (BT.processCandle closeAlwaysStrat {} c7St c7Candle none).currentTrade = none ∧
      (BT.processCandle closeAlwaysStrat {} c7St c7Candle none).strat.position = none ∧
      (BT.processCandle closeAlwaysStrat {} c7St c7Candle none).closedTrades
        = c7St.closedTrades ++ [c7Trade.close ((2 : ℤ) : ℚ) 101 "Signal"]) ∨
    ((closeAlwaysStrat.getSignal (closeAlwaysStrat.update c7St.strat c7Candle none)).signal
        ≠ Signal.CLOSE ∧
      (BT.processCandle closeAlwaysStrat {} c7St c7Candle none).currentTrade = some c7Trade ∧
      (BT.processCandle closeAlwaysStrat {} c7St c7Candle none).closedTrades
        = c7St.closedTrades) :=
  backtester_single_open_position closeAlwaysStrat {} c7St c7Candle none c7Trade rfl

namespace BT

/-- The force-close epilogue's contribution to the trade history: one
trade closed with reason "End of backtest" when one is still open,
nothing otherwise. -/
def forcedTrades {σ : Type} (st : BtState σ) (e : ℤ) (p : ℚ) : List Trade :=
  match st.currentTrade with
  | some t => [t.close (e : ℚ) p "End of backtest"]
  | none => []

end BT

/-- C9: when the candle loop completes and the last row parses, the
reported trade history is exactly the loop's closed trades plus the one
force-closed trade (closed at the last row's close price with reason
"End of backtest") when a position is still open, and the loop's closed
trades alone when none is open. -/
theorem run_end_of_backtest_close {σ : Type} (strat : BT.Strategy σ) (cfg : BT.Config)
    (s0 : σ) (df : BT.Df) (mtf : Option (List (Option ℚ))) (st : BT.BtState σ)
    (e : ℤ) (p : ℚ)
    (h1 : BT.runLoop strat cfg s0 df mtf = Except.ok st)
    (h2 : BT.lastRowParse df = some (e, p)) :
    ∃ res, BT.run strat cfg s0 df mtf = Except.ok res ∧
      res.trades = st.closedTrades ++ BT.forcedTrades st e p := by
  cases hct : st.currentTrade with
  | none =>
    refine ⟨BT.calcMetrics st, ?_, ?_⟩
    · simp only [BT.run, h1, hct]
    · simp [BT.calcMetrics, BT.forcedTrades, hct]
  | some t =>
    refine ⟨BT.calcMetrics (BT.closeTrade st e p "End of backtest"), ?_, ?_⟩
    · simp only [BT.run, h1, hct, h2]
    · simp [BT.calcMetrics, BT.closeTrade, BT.forcedTrades, hct]

/-- A strategy that signals BUY on the first candle and HOLD after,
leaving its trade open to the end of the replay. -/
def buyOnceStrat : BT.Strategy ℕ :=
  { update := fun s _ _ => { s with inner := s.inner + 1 }
    getSignal := fun s =>
      if s.inner = 1 then { signal := Signal.BUY } else { signal := Signal.HOLD } }

/-- Two well-formed candle rows. -/
def c9Df : BT.Df :=
  { hasTime := true
    rows := [
      { time := some 1, open_ := some 100, high := some 100, low := some 100,
        close := some 100 },
      { time := some 2, open_ := some 101, high := some 101, low := some 101,
        close := some 101 }] }

/-- The loop state after replaying `c9Df` with `buyOnceStrat`: the BUY
trade from the first candle is still open (its `currentTrade` is the
100-entry BUY trade and its `closedTrades` list is empty). -/
def c9LoopSt : BT.BtState ℕ :=
  match BT.runLoop buyOnceStrat {} 0 c9Df none with
  | Except.ok st => st
  | Except.error _ => BT.initBtState {} 0

/-- Witness for C9: a concrete run whose BUY trade is never closed by a
signal is force-closed at the final candle. -/
theorem run_end_of_backtest_close_witness :
    (∃ res, BT.run buyOnceStrat {} 0 c9Df none = Except.ok res ∧
      res.trades = c9LoopSt.closedTrades ++ BT.forcedTrades c9LoopSt 2 101) ∧
    c9LoopSt.closedTrades = [] ∧ (BT.forcedTrades c9LoopSt 2 101).length = 1 :=
  ⟨run_end_of_backtest_close buyOnceStrat {} 0 c9Df none c9LoopSt 2 101 (by rfl) (by rfl),
   rfl, rfl⟩

namespace BT

/-- The equity curve never dips below its running peak (peak updated
exactly as `ddStep` updates it). -/
def NoDip (peak : ℚ) : List ℚ → Prop
  | [] => True
  | e :: t => peak ≤ e ∧ NoDip (if peak < e then e else peak) t

/-- The running maximum drawdown only grows along the fold. -/
theorem ddStep_fold_ge (l : List ℚ) : ∀ peak mdd : ℚ,
    mdd ≤ (l.foldl ddStep (peak, mdd)).2 := by
  induction l with
  | nil => intro peak mdd; simp
  | cons e t ih =>
    intro peak mdd
    rw [List.foldl_cons]
    have h1 : mdd ≤ (ddStep (peak, mdd) e).2 := by
      simp only [ddStep]
      by_cases hc : mdd < if 0 < (if peak < e then e else peak)
          then ((if peak < e then e else peak) - e) / (if peak < e then e else peak) * 100
          else 0
      · rw [if_pos hc]; exact le_of_lt hc
      · rw [if_neg hc]
    have h2 := ih (ddStep (peak, mdd) e).1 (ddStep (peak, mdd) e).2
    rw [Prod.mk.eta] at h2
    exact le_trans h1 h2

/-- Along a never-dipping curve every per-step drawdown is zero, so the
running maximum is unchanged. -/
theorem ddStep_fold_nodip (l : List ℚ) : ∀ peak mdd : ℚ, 0 ≤ mdd →
    NoDip peak l → (l.foldl ddStep (peak, mdd)).2 = mdd := by
  induction l with
  | nil => intro peak mdd _ _; simp
  | cons e t ih =>
    intro peak mdd hm hnd
    obtain ⟨h1, h2⟩ := hnd
    rw [List.foldl_cons]
    have hdd : ddStep (peak, mdd) e = (if peak < e then e else peak, mdd) := by
      simp only [ddStep]
      by_cases hpe : peak < e
      · simp only [hpe, if_true]
        congr 1
        rw [sub_self, zero_div, zero_mul, ite_self]
        rw [if_neg (not_lt.mpr hm)]
      · have heq : e = peak := le_antisymm (not_lt.mp hpe) h1
        subst heq
        simp only [hpe, if_false]
        congr 1
        rw [sub_self, zero_div, zero_mul, ite_self]
        rw [if_neg (not_lt.mpr hm)]
    rw [hdd]
    exact ih _ mdd hm h2

/-- A dip below the running peak forces a strictly positive maximum
drawdown, provided the peak is positive. -/
theorem ddStep_fold_dip (l : List ℚ) : ∀ peak mdd : ℚ, 0 < peak →
    ¬ NoDip peak l → 0 < (l.foldl ddStep (peak, mdd)).2 := by
  induction l with
  | nil => intro peak mdd _ hnd; exact absurd trivial hnd
  | cons e t ih =>
    intro peak mdd hp hnd
    rw [List.foldl_cons]
    by_cases hpe : peak ≤ e
    · have hnd' : ¬ NoDip (if peak < e then e else peak) t := fun h => hnd ⟨hpe, h⟩
      have hp' : 0 < (if peak < e then e else peak) := by
        split
        · exact lt_trans hp (by assumption)
        · exact hp
      have hfst : (ddStep (peak, mdd) e).1 = if peak < e then e else peak := by
        simp only [ddStep]
      have := ih (ddStep (peak, mdd) e).1 (ddStep (peak, mdd) e).2
        (by rw [hfst]; exact hp') (by rw [hfst]; exact hnd')
      rw [Prod.mk.eta] at this
      exact this
    · push_neg at hpe
      have hnlt : ¬ peak < e := not_lt.mpr (le_of_lt hpe)
      have hddpos : 0 < (peak - e) / peak * 100 := by
        apply mul_pos _ (by norm_num)
        exact div_pos (by linarith) hp
      have hsnd : 0 < (ddStep (peak, mdd) e).2 := by
        simp only [ddStep, hnlt, if_false, hp, if_true]
        split
        · exact hddpos
        · exact lt_of_lt_of_le hddpos (not_lt.mp (by assumption))
      have := ddStep_fold_ge t (ddStep (peak, mdd) e).1 (ddStep (peak, mdd) e).2
      rw [Prod.mk.eta] at this
      exact lt_of_lt_of_le hsnd this

/-- Never dipping below the running peak is the same as the list being
a nondecreasing chain from the starting peak. -/
theorem nodip_iff_chain (l : List ℚ) : ∀ a : ℚ,
    NoDip a l ↔ List.Chain (· ≤ ·) a l := by
  induction l with
  | nil => intro a; simp [NoDip]
  | cons e t ih =>
    intro a
    rw [List.chain_cons]
    show a ≤ e ∧ NoDip (if a < e then e else a) t ↔ a ≤ e ∧ List.Chain (· ≤ ·) e t
    apply and_congr_right
    intro hae
    by_cases hlt : a < e
    · rw [if_pos hlt]; exact ih e
    · have heq : e = a := le_antisymm (not_lt.mp hlt) hae
      subst heq
      rw [if_neg hlt]; exact ih e

end BT

/-- C8 (amended): for every equity curve starting from a positive
initial balance, the max drawdown computed by
`Backtester._calculate_metrics` is nonnegative, and it is zero iff the
curve is nondecreasing throughout.  (For a nonpositive starting
balance the percentage drawdown is defined as 0, so the equivalence can
fail there.) -/
theorem max_drawdown_nonneg_zero_iff_monotone (b : ℚ) (rest : List ℚ) (hb : 0 < b) :
    0 ≤ BT.maxDrawdown (b :: rest) ∧
    (BT.maxDrawdown (b :: rest) = 0 ↔ List.Chain' (· ≤ ·) (b :: rest)) := by
  have hstep : BT.ddStep (b, 0) b = (b, 0) := by
    simp only [BT.ddStep, lt_irrefl, if_false]
    congr 1
    rw [sub_self, zero_div, zero_mul, ite_self]
    rw [if_neg (lt_irrefl 0)]
  have hmd : BT.maxDrawdown (b :: rest) = (rest.foldl BT.ddStep (b, 0)).2 := by
    unfold BT.maxDrawdown
    rw [List.headD_cons, List.foldl_cons, hstep]
  constructor
  · rw [hmd]; exact BT.ddStep_fold_ge rest b 0
  · rw [hmd]
    show _ ↔ List.Chain (· ≤ ·) b rest
    constructor
    · intro hzero
      by_contra hnc
      have hnd : ¬ BT.NoDip b rest := fun h => hnc ((BT.nodip_iff_chain rest b).mp h)
      have := BT.ddStep_fold_dip rest b 0 hb hnd
      rw [hzero] at this
      exact lt_irrefl 0 this
    · intro hc
      exact BT.ddStep_fold_nodip rest b 0 (le_refl 0)
        ((BT.nodip_iff_chain rest b).mpr hc)

/-- Witness for C8's amended theorem at a concrete dipping curve. -/
theorem max_drawdown_nonneg_zero_iff_monotone_witness :
    0 ≤ BT.maxDrawdown [1000, 990, 1005] ∧
    (BT.maxDrawdown [1000, 990, 1005] = 0 ↔
      List.Chain' (· ≤ ·) [(1000 : ℚ), 990, 1005]) :=
  max_drawdown_nonneg_zero_iff_monotone 1000 [990, 1005] (by norm_num)

/-- A strategy that buys on the first candle and closes on the second. -/
def c8Strat : BT.Strategy ℕ :=
  { update := fun s _ _ => { s with inner := s.inner + 1 }
    getSignal := fun s =>
      if s.inner = 1 then { signal := Signal.BUY }
      else if s.inner = 2 then { signal := Signal.CLOSE }
      else { signal := Signal.HOLD } }

/-- A backtester funded with a negative initial balance. -/
def c8Cfg : BT.Config := { initial_balance := -10, stake_per_trade := 10 }

/-- Two candles registering a total loss: entry at close 100, exit at
close 0. -/
def c8Df : BT.Df :=
  { hasTime := true
    rows := [
      { time := some 1, open_ := some 100, high := some 100, low := some 100,
        close := some 100 },
      { time := some 2, open_ := some 0, high := some 0, low := some 0,
        close := some 0 }] }

/-- The trade record produced by the `c8Df` replay. -/
def c8Trade : BT.Trade :=
  { entry_time := 1, entry_price := 100, entry_signal := "BUY", stake := 10,
    exit_time := some 2, exit_price := some 0, exit_reason := some "Signal",
    pnl := some (-10), pnl_pct := some (-100), duration_seconds := some 1 }

/-- The loop state after replaying `c8Df` with `c8Strat`. -/
def c8LoopSt : BT.BtState ℕ :=
  { strat := { inner := 2, position := none },
    currentTrade := none,
    closedTrades := [c8Trade],
    equity := [-10, -10, -20],
    timestamps := [1, 2],
    runningPnl := -10 }

/-- Counterexample to C8 as stated: a backtest whose equity curve
[-10, -10, -20] strictly decreases still reports max_drawdown = 0,
because the drawdown percentage is defined as 0 whenever the running
peak is not positive. -/
theorem drawdown_zero_on_decreasing_backtest_curve :
    ∃ res, BT.run c8Strat c8Cfg 0 c8Df none = Except.ok res ∧
      res.max_drawdown = 0 ∧ res.equity_curve = [-10, -10, -20] ∧
      ¬ List.Chain' (· ≤ ·) res.equity_curve := by
  have hloop : BT.runLoop c8Strat c8Cfg 0 c8Df none = Except.ok c8LoopSt := by
    simp [BT.runLoop, BT.runLoopAux, BT.stepRow, BT.parseCandle, BT.getEpoch,
      BT.mtfAccess, BT.processCandle, BT.enterTrade, BT.closeTrade, BT.setPosition,
      BT.initBtState, BT.Trade.close, BT.ratTrunc, c8Strat, c8Cfg, c8Df, c8LoopSt,
      c8Trade, List.enum, List.enumFrom]
    norm_num
  have hrun : BT.run c8Strat c8Cfg 0 c8Df none = Except.ok (BT.calcMetrics c8LoopSt) := by
    simp only [BT.run, hloop, c8LoopSt]
  refine ⟨_, hrun, ?_, ?_, ?_⟩
  · show (BT.calcMetrics c8LoopSt).max_drawdown = 0
    simp only [BT.calcMetrics, c8LoopSt]
    norm_num [BT.maxDrawdown, BT.ddStep]
  · show (BT.calcMetrics c8LoopSt).equity_curve = [-10, -10, -20]
    simp only [BT.calcMetrics, c8LoopSt]
  · show ¬ List.Chain' (· ≤ ·) (BT.calcMetrics c8LoopSt).equity_curve
    simp only [BT.calcMetrics, c8LoopSt]
    norm_num [List.chain'_cons, List.chain'_singleton]

namespace Tools

/-- `pnls = [t.pnl for t in trades if t.pnl is not None]`. -/
def pnlsOf (trades : List BT.Trade) : List ℚ :=
  trades.filterMap (·.pnl)

/-- `wins = [p for p in pnls if p > 0]`. -/
def winsOf (trades : List BT.Trade) : List ℚ :=
  (pnlsOf trades).filter (fun p => decide (0 < p))

/-- `losses = [p for p in pnls if p < 0]`. -/
def lossesOf (trades : List BT.Trade) : List ℚ :=
  (pnlsOf trades).filter (fun p => decide (p < 0))

/-- The profit factor of `compute_metrics` in
src/tools/walk_forward_test.py: `0.0` on the empty-trades early return;
otherwise `sum(wins)/abs(sum(losses))` when there are losses, else
`float("inf")` when there are wins, else `0.0`. -/
def computeMetricsProfitFactor (trades : List BT.Trade) : WithTop ℚ :=
  if trades = [] then 0
  else if lossesOf trades ≠ [] then
    (((winsOf trades).sum / |(lossesOf trades).sum| : ℚ) : WithTop ℚ)
  else if winsOf trades ≠ [] then ⊤
  else 0

/-- `wins_sum` of the sweep loop in src/tools/param_optimizer.py:
`sum(t.pnl for t in result.trades if t.pnl and t.pnl > 0)`. -/
def paramWinsSum (trades : List BT.Trade) : ℚ :=
  ((trades.filter BT.pnlPos).filterMap (·.pnl)).sum

/-- `losses_sum = abs(sum(t.pnl for t in result.trades if t.pnl and t.pnl < 0))`. -/
def paramLossesSum (trades : List BT.Trade) : ℚ :=
  |((trades.filter BT.pnlNeg).filterMap (·.pnl)).sum|

/-- The profit factor of the sweep loop in src/tools/param_optimizer.py:
`wins_sum / losses_sum if losses_sum > 0 else 0` — it never produces
infinity. -/
def paramProfitFactor (trades : List BT.Trade) : ℚ :=
  if 0 < paramLossesSum trades then paramWinsSum trades / paramLossesSum trades else 0

/-- The profit factor of the monthly loop in
src/tools/monthly_backtest_analysis.py. -/
def monthlyProfitFactor (trades : List BT.Trade) : WithTop ℚ :=
  let total_wins : ℚ := if winsOf trades ≠ [] then (winsOf trades).sum else 0
  let total_losses : ℚ := if lossesOf trades ≠ [] then |(lossesOf trades).sum| else 0
  if 0 < total_losses then ((total_wins / total_losses : ℚ) : WithTop ℚ)
  else if 0 < total_wins then ⊤
  else 0

/-- The claim's profit factor, stated from its words for comparison:
gross realized wins over gross realized losses, +inf with zero losses
and at least one win, 0 with zero wins and zero losses. -/
def specProfitFactor (trades : List BT.Trade) : WithTop ℚ :=
  if lossesOf trades ≠ [] then
    (((winsOf trades).sum / |(lossesOf trades).sum| : ℚ) : WithTop ℚ)
  else if winsOf trades ≠ [] then ⊤
  else 0

/-- Filtering trades by a positive pnl and projecting the pnl is the
same as projecting the pnls and filtering the positive ones. -/
theorem filter_pnlPos_filterMap (trades : List BT.Trade) :
    (trades.filter BT.pnlPos).filterMap (·.pnl) = winsOf trades := by
  unfold winsOf pnlsOf
  induction trades with
  | nil => rfl
  | cons t ts ih =>
    cases hp : t.pnl with
    | none => simp [List.filter_cons, List.filterMap_cons, BT.pnlPos, hp, ih]
    | some v =>
      by_cases hv : 0 < v <;>
        simp [List.filter_cons, List.filterMap_cons, BT.pnlPos, hp, hv, ih]

/-- Same fact for the losses. -/
theorem filter_pnlNeg_filterMap (trades : List BT.Trade) :
    (trades.filter BT.pnlNeg).filterMap (·.pnl) = lossesOf trades := by
  unfold lossesOf pnlsOf
  induction trades with
  | nil => rfl
  | cons t ts ih =>
    cases hp : t.pnl with
    | none => simp [List.filter_cons, List.filterMap_cons, BT.pnlNeg, hp, ih]
    | some v =>
      by_cases hv : v < 0 <;>
        simp [List.filter_cons, List.filterMap_cons, BT.pnlNeg, hp, hv, ih]

/-- A nonempty list of negative rationals has a negative sum. -/
theorem sum_neg_of_all_neg (l : List ℚ) (hne : l ≠ []) (h : ∀ x ∈ l, x < 0) :
    l.sum < 0 := by
  induction l with
  | nil => exact absurd rfl hne
  | cons x xs ih =>
    rw [List.sum_cons]
    by_cases hxs : xs = []
    · subst hxs; simpa using h x (List.mem_cons_self x [])
    · have hx := h x (List.mem_cons_self x xs)
      have hsum := ih hxs (fun z hz => h z (List.mem_cons_of_mem x hz))
      linarith
  
/-- The gross-loss magnitude is positive iff there are losses. -/
theorem lossesOf_sum_neg (trades : List BT.Trade) (hne : lossesOf trades ≠ []) :
    (lossesOf trades).sum < 0 := by
  apply sum_neg_of_all_neg _ hne
  intro x hx
  have := List.of_mem_filter hx
  exact of_decide_eq_true this

/-- The gross wins are positive when wins exist. -/
theorem winsOf_sum_pos (trades : List BT.Trade) (hne : winsOf trades ≠ []) :
    0 < (winsOf trades).sum := by
  apply List.sum_pos
  · intro x hx
    have := List.of_mem_filter hx
    exact of_decide_eq_true this
  · exact hne

end Tools

/-- C5 (amended): `compute_metrics` in walk_forward_test.py and the
monthly loop in monthly_backtest_analysis.py both realize the claimed
profit factor with its edge cases (+inf with zero losses and a win,
0 with neither), but the sweep loop in param_optimizer.py returns 0
whenever gross losses are zero, even when wins exist. -/
theorem profit_factor_three_sites (trades : List BT.Trade) :
    Tools.computeMetricsProfitFactor trades = Tools.specProfitFactor trades ∧
    Tools.monthlyProfitFactor trades = Tools.specProfitFactor trades ∧
    ((Tools.lossesOf trades = [] ∧ Tools.paramProfitFactor trades = 0) ∨
     (Tools.lossesOf trades ≠ [] ∧
       (Tools.paramProfitFactor trades : WithTop ℚ) = Tools.specProfitFactor trades)) := by
  refine ⟨?_, ?_, ?_⟩
  · unfold Tools.computeMetricsProfitFactor Tools.specProfitFactor
    by_cases ht : trades = []
    · subst ht
      simp [Tools.lossesOf, Tools.winsOf, Tools.pnlsOf]
    · rw [if_neg ht]
  · unfold Tools.monthlyProfitFactor Tools.specProfitFactor
    by_cases hl : Tools.lossesOf trades = []
    · by_cases hw : Tools.winsOf trades = []
      · simp [hl, hw]
      · simp [hl, hw, Tools.winsOf_sum_pos trades hw]
    · have hsum := Tools.lossesOf_sum_neg trades hl
      have habs : 0 < |(Tools.lossesOf trades).sum| := abs_pos.mpr (ne_of_lt hsum)
      by_cases hw : Tools.winsOf trades = []
      · simp [hl, hw, habs]
      · simp [hl, hw, habs]
  · by_cases hl : Tools.lossesOf trades = []
    · left
      refine ⟨hl, ?_⟩
      unfold Tools.paramProfitFactor Tools.paramLossesSum
      rw [Tools.filter_pnlNeg_filterMap, hl]
      simp
    · right
      refine ⟨hl, ?_⟩
      have hsum := Tools.lossesOf_sum_neg trades hl
      have habs : 0 < |(Tools.lossesOf trades).sum| := abs_pos.mpr (ne_of_lt hsum)
      unfold Tools.paramProfitFactor Tools.paramWinsSum Tools.paramLossesSum
        Tools.specProfitFactor
      rw [Tools.filter_pnlNeg_filterMap, Tools.filter_pnlPos_filterMap]
      rw [if_pos habs, if_pos hl]

/-- A single winning trade. -/
def c5WinTrade : BT.Trade :=
  { entry_time := 0, entry_price := 100, entry_signal := "BUY", stake := 10,
    pnl := some 5 }

/-- Counterexample to C5 as stated: with one win and zero losses the
claim demands a profit factor of +inf, but the sweep loop of
param_optimizer.py yields 0. -/
theorem param_profit_factor_zero_despite_win :
    Tools.paramProfitFactor [c5WinTrade] = 0 ∧
    Tools.specProfitFactor [c5WinTrade] = ⊤ := by
  constructor
  · unfold Tools.paramProfitFactor Tools.paramLossesSum Tools.paramWinsSum
    simp [c5WinTrade, BT.pnlNeg, BT.pnlPos]
  · unfold Tools.specProfitFactor Tools.lossesOf Tools.winsOf Tools.pnlsOf
    simp [c5WinTrade]

namespace Harmonic

/-- One OHLC candle as consumed by `FourierStrategy` (real-valued,
since the strategy applies `np.cos`/`np.arctan2`). -/
structure Candle where
  open_ : ℝ
  high : ℝ
  low : ℝ
  close : ℝ
  epoch : ℤ

/-- Placeholder candle for list indexing; the source never reads an
out-of-range index on the paths covered by the theorems. -/
def dummyCandle : Candle := ⟨0, 0, 0, 0, 0⟩

/-- The optional higher-timeframe candle `{'close': ...}`. -/
structure MtfCandle where
  close : ℝ

/-- `FourierStrategy.__init__` parameters with their defaults.  `rr`
is the source's `rr_ratio`. -/
structure Params where
  lookback : ℕ := 150
  forecast : ℕ := 20
  smooth_period : ℕ := 11
  stake : ℝ := 30
  risk_cash : ℝ := 15
  rr : ℝ := 3
  atr_period : ℕ := 14
  atr_multiplier : ℝ := 1/2
  mtf_enabled : Bool := false

/-- Position side as set by the backtester ('LONG' or 'SHORT'). -/
inductive PosType where
  | LONG
  | SHORT
deriving DecidableEq

/-- The position dict handed to `set_position`. -/
structure Position where
  ptype : PosType
  entry_price : ℝ
  entry_time : ℤ
  stop_loss : Option ℝ := none
  take_profit : Option ℝ := none

/-- The `self.indicators` dict; a `none` field is an absent key. -/
structure Indicators where
  atr : Option ℝ := none
  trend_strength : Option ℝ := none
  is_ranging : Option Bool := none
  predicted_price : Option ℝ := none
  dominant_period : Option ℕ := none
  amplitude : Option ℝ := none

/-- A real-valued `TradeSignal`. -/
structure TradeSignalR where
  signal : Signal
  strength : ℝ := 0
  stop_loss : Option ℝ := none
  take_profit : Option ℝ := none

/-- The full mutable state of a `FourierStrategy` instance. -/
structure FourierStrategy where
  params : Params
  data_buffer : List Candle := []
  smoothed_prices : List ℝ := []
  indicators : Indicators := {}
  predicted_price : Option ℝ := none
  mtf_predicted_price : Option ℝ := none
  position : Option Position := none

/-- A freshly constructed (or `reset`) strategy. -/
def initState (p : Params) : FourierStrategy := { params := p }

/-- Python slice `l[-n:]` for `n ≥ 1`. -/
def takeLast {α : Type} (n : ℕ) (l : List α) : List α :=
  l.drop (l.length - n)

/-- `np.mean`. -/
noncomputable def npMean (l : List ℝ) : ℝ := l.sum / l.length

/-- `np.max` (the source only applies it to nonempty arrays). -/
noncomputable def npMax (l : List ℝ) : ℝ := l.foldl max (l.headD 0)

/-- `np.min`. -/
noncomputable def npMin (l : List ℝ) : ℝ := l.foldl min (l.headD 0)

/-- `np.where(arr == x)[0][-1]`: the last index of `l` holding `x`. -/
noncomputable def lastIndexEq (l : List ℝ) (x : ℝ) : ℕ :=
  l.length - 1 - l.reverse.indexOf x

/-- `required_candles`: `max(lookback, atr_period) + 20`. -/
def required_candles (p : Params) : ℕ :=
  max p.lookback p.atr_period + 20

/-- The weights `np.arange(1, n+1)`. -/
noncomputable def weightList (n : ℕ) : List ℝ :=
  (List.range n).map (fun (i : ℕ) => ((i : ℝ) + 1))

/-- `FourierStrategy._smooth_price`: linear-weighted moving average of
the last `smooth_period` closes. -/
noncomputable def smooth_price (p : Params) (buf : List Candle) : ℝ :=
  let prices := (takeLast p.smooth_period buf).map (·.close)
  let weights := weightList prices.length
  (List.zipWith (· * ·) prices weights).sum / weights.sum

/-- `FourierStrategy._calculate_atr`.  The source sets, for `i` in
`range(-atr_period, 0)`, `prev_close = buffer[i-1].close if i > 0 else
low`; `i` is always negative, so the condition is dead and `prev_close`
is always the candle's own low, collapsing TR to `high - low`.  The
dead branch is kept verbatim. -/
noncomputable def calculate_atr (p : Params) (buf : List Candle) : ℝ :=
  if buf.length < p.atr_period then 0
  else
    let true_ranges := (List.range p.atr_period).map (fun (j : ℕ) =>
      let i : ℤ := (j : ℤ) - (p.atr_period : ℤ)
      let pos : ℕ := buf.length - p.atr_period + j
      let c := buf.getD pos dummyCandle
      let prev_close :=
        if 0 < i then (buf.getD (pos - 1) dummyCandle).close
        else c.low
      max (c.high - c.low) (max |c.high - prev_close| |c.low - prev_close|))
    true_ranges.sum / true_ranges.length

/-- `FourierStrategy._find_period`. -/
noncomputable def find_period (sp : List ℝ) : ℕ :=
  if sp.length < 2 then sp.length / 2
  else
    let max_idx := lastIndexEq sp (npMax sp)
    let min_idx := lastIndexEq sp (npMin sp)
    let period := ((max_idx : ℤ) - (min_idx : ℤ)).natAbs
    if 1 < period then period else sp.length / 2

/-- `np.arctan2`. -/
noncomputable def arctan2 (y x : ℝ) : ℝ :=
  if 0 < x then Real.arctan (y / x)
  else if x < 0 then
    (if 0 ≤ y then Real.arctan (y / x) + Real.pi else Real.arctan (y / x) - Real.pi)
  else
    (if 0 < y then Real.pi / 2 else if y < 0 then -(Real.pi / 2) else 0)

/-- `FourierStrategy._calculate_prediction`: period detection,
amplitude/midpoint, phase (0 when the amplitude is 0), and the cosine
projection at the forecast horizon. -/
noncomputable def calculate_prediction (st : FourierStrategy) : FourierStrategy :=
  let prices := st.smoothed_prices
  let dominant_period := find_period prices
  let amplitude := (npMax prices - npMin prices) / 2
  let midpoint := (npMax prices + npMin prices) / 2
  let last_price := prices.getLastD 0
  let phase_offset :=
    if amplitude = 0 then 0 else arctan2 (last_price - midpoint) amplitude
  let frequency : ℝ :=
    if 0 < dominant_period then 1 / (dominant_period : ℝ) else 0
  let predicted := midpoint + amplitude *
    Real.cos (2 * Real.pi * frequency * (st.params.forecast : ℝ) + phase_offset)
  { st with
    predicted_price := some predicted
    indicators := { st.indicators with
      predicted_price := some predicted
      dominant_period := some dominant_period
      amplitude := some amplitude } }

/-- `FourierStrategy._calculate_indicators`: ATR, SMA-20/SMA-50 trend
strength, the ranging flag, and (once the smoothed series reaches the
lookback) the harmonic prediction. -/
noncomputable def calculate_indicators (st : FourierStrategy) : FourierStrategy :=
  let atr := calculate_atr st.params st.data_buffer
  let closes := st.data_buffer.map (·.close)
  let sma_20 := npMean (takeLast 20 closes)
  let sma_50 := if 50 ≤ closes.length then npMean (takeLast 50 closes) else sma_20
  let trend_strength := |sma_20 - sma_50|
  let st : FourierStrategy := { st with
    indicators := { st.indicators with
      atr := some atr
      trend_strength := some trend_strength
      is_ranging := some (decide (trend_strength < atr * 2)) } }
  if st.params.lookback ≤ st.smoothed_prices.length then calculate_prediction st
  else st

/-- Statement `self.data_buffer.append(candle)` of
`FourierStrategy.update`. -/
noncomputable def update_append (st : FourierStrategy) (c : Candle) : FourierStrategy :=
  { st with data_buffer := st.data_buffer ++ [c] }

/-- Statement `if mtf_candle: self.mtf_predicted_price = ...` of
`FourierStrategy.update`. -/
noncomputable def update_mtf (st : FourierStrategy)
    (mtf : Option MtfCandle) : FourierStrategy :=
  match mtf with
  | some m => { st with mtf_predicted_price := some m.close }
  | none => st

/-- The buffer trim of `FourierStrategy.update`: keep only the last
`required_candles + 50` candles. -/
noncomputable def update_trim (st : FourierStrategy) : FourierStrategy :=
  let max_buffer := required_candles st.params + 50
  if max_buffer < st.data_buffer.length then
    { st with data_buffer := takeLast max_buffer st.data_buffer }
  else st

/-- The smoothed-price step of `FourierStrategy.update`: once the
buffer reaches `smooth_period`, append the weighted average and keep
the series at `lookback` length. -/
noncomputable def update_smooth (st : FourierStrategy) : FourierStrategy :=
  if st.params.smooth_period ≤ st.data_buffer.length then
    let smoothed := smooth_price st.params st.data_buffer
    let sp := st.smoothed_prices ++ [smoothed]
    let sp :=
      if st.params.lookback < sp.length then takeLast st.params.lookback sp
      else sp
    { st with smoothed_prices := sp }
  else st

/-- The indicator step of `FourierStrategy.update`: recompute once the
buffer reaches `required_candles`. -/
noncomputable def update_indicators (st : FourierStrategy) : FourierStrategy :=
  if required_candles st.params ≤ st.data_buffer.length then calculate_indicators st
  else st

/-- `FourierStrategy.update`: append the candle, note the mtf close,
trim the buffer to `required_candles + 50`, append the smoothed price
(trimmed to `lookback`) once the buffer reaches `smooth_period`, and
recompute the indicators once it reaches `required_candles`; the
method's statements in source order. -/
noncomputable def update (st : FourierStrategy) (c : Candle)
    (mtf : Option MtfCandle) : FourierStrategy :=
  update_indicators (update_smooth (update_trim (update_mtf (update_append st c) mtf)))

/-- Python truthiness of the optional mtf price (`None` and `0.0` are
falsy). -/
noncomputable def mtfTruthy (m : Option ℝ) : Bool :=
  match m with
  | none => false
  | some v => decide (v ≠ 0)

/-- `FourierStrategy.get_signal`: HOLD before `required_candles` or
without a prediction; a ranging-and-deviation gate; CLOSE on a
prediction cross while a position is set; otherwise the BUY/SELL entry
logic with optional mtf confirmation and fixed-cash risk sizing. -/
noncomputable def get_signal (st : FourierStrategy) : TradeSignalR :=
  if st.data_buffer.length < required_candles st.params then { signal := Signal.HOLD }
  else
    match st.predicted_price with
    | none => { signal := Signal.HOLD }
    | some predicted =>
      let current_price := (st.data_buffer.getLastD dummyCandle).close
      let atr := st.indicators.atr.getD 0
      let is_ranging := st.indicators.is_ranging.getD false
      let signal_strength := |current_price - predicted|
      let min_signal_strength := atr * st.params.atr_multiplier
      if is_ranging = false ∨ signal_strength < min_signal_strength then
        { signal := Signal.HOLD }
      else
        match st.position with
        | some pos =>
          match pos.ptype with
          | PosType.LONG =>
            if predicted < current_price then { signal := Signal.CLOSE, strength := 1 }
            else { signal := Signal.HOLD }
          | PosType.SHORT =>
            if current_price < predicted then { signal := Signal.CLOSE, strength := 1 }
            else { signal := Signal.HOLD }
        | none =>
          if current_price < predicted then
            if st.params.mtf_enabled = true ∧ mtfTruthy st.mtf_predicted_price = true ∧
                st.mtf_predicted_price.getD 0 ≤ current_price then
              { signal := Signal.HOLD }
            else
              let risk_price_move :=
                (st.params.risk_cash / max st.params.stake (1 / 1000000000)) * current_price
              { signal := Signal.BUY
                strength := min (signal_strength / (atr * 2)) 1
                stop_loss := some (current_price - risk_price_move)
                take_profit := some (current_price + risk_price_move * st.params.rr) }
          else if predicted < current_price then
            if st.params.mtf_enabled = true ∧ mtfTruthy st.mtf_predicted_price = true ∧
                current_price ≤ st.mtf_predicted_price.getD 0 then
              { signal := Signal.HOLD }
            else
              let risk_price_move :=
                (st.params.risk_cash / max st.params.stake (1 / 1000000000)) * current_price
              { signal := Signal.SELL
                strength := min (signal_strength / (atr * 2)) 1
                stop_loss := some (current_price + risk_price_move)
                take_profit := some (current_price - risk_price_move * st.params.rr) }
          else { signal := Signal.HOLD }

/-- The claim's ATR, stated from its words for comparison with the two
implementations: the mean over the last `atr_period` candles of
TR = max(high-low, |high-prevClose|, |low-prevClose|), `prevClose`
being the close of the candle immediately preceding the candle in the
buffer (the buffer head, which has no predecessor, falls back to its
own low, which is immaterial at the inputs used). -/
noncomputable def specTrueRangeATR (atr_period : ℕ) (buf : List Candle) : ℝ :=
  if buf.length < atr_period then 0
  else
    let trs := (List.range atr_period).map (fun j =>
      let g : ℕ := buf.length - atr_period + j
      let c := buf.getD g dummyCandle
      let prev_close := if g = 0 then c.low else (buf.getD (g - 1) dummyCandle).close
      max (c.high - c.low) (max |c.high - prev_close| |c.low - prev_close|))
    trs.sum / trs.length

end Harmonic

namespace Enhanced

/-- `EnhancedFourierStrategy._calculate_atr` of src/fourier_enhanced.py:
identical to the FourierStrategy version except the guard
`if i > -self.atr_period`, so only the first candle of the window (not
of the buffer) falls back to its own low. -/
noncomputable def calculate_atr (atr_period : ℕ) (buf : List Harmonic.Candle) : ℝ :=
  if buf.length < atr_period then 0
  else
    let true_ranges := (List.range atr_period).map (fun (j : ℕ) =>
      let i : ℤ := (j : ℤ) - (atr_period : ℤ)
      let pos : ℕ := buf.length - atr_period + j
      let c := buf.getD pos Harmonic.dummyCandle
      let prev_close :=
        if -(atr_period : ℤ) < i then
          (buf.getD (pos - 1) Harmonic.dummyCandle).close
        else c.low
      max (c.high - c.low) (max |c.high - prev_close| |c.low - prev_close|))
    true_ranges.sum / true_ranges.length

end Enhanced

/-- Three flat-then-jump candles: closes 100, 110, 110, with
high = low = close on each candle. -/
def c1Buf : List Harmonic.Candle :=
  [⟨100, 100, 100, 100, 0⟩, ⟨110, 110, 110, 110, 1⟩, ⟨110, 110, 110, 110, 2⟩]

/-- C1: on the buffer `c1Buf` with atr_period = 2 both `_calculate_atr`
implementations return 0 — `FourierStrategy`'s dead `i > 0` guard makes
every TR collapse to high - low, and the enhanced variant seeds the
window's first TR with the candle's own low although a preceding buffer
candle exists — while the claimed true-range mean is 5. -/
theorem atr_ignores_prev_close_eval :
    Harmonic.calculate_atr { atr_period := 2 } c1Buf = 0 ∧
    Enhanced.calculate_atr 2 c1Buf = 0 ∧
    Harmonic.specTrueRangeATR 2 c1Buf = 5 := by
  refine ⟨?_, ?_, ?_⟩ <;>
    norm_num [Harmonic.calculate_atr, Enhanced.calculate_atr,
      Harmonic.specTrueRangeATR, c1Buf, Harmonic.dummyCandle, List.range_succ,
      List.getD]

/-- C3 (amended): whenever the buffer has reached `required_candles`, a
prediction exists, the ranging flag is set and the deviation gate
passes (atr x atr_multiplier <= |current - predicted|), a set LONG
position with the current close strictly above the predicted price
makes `get_signal` return CLOSE, and symmetrically a SHORT position
with the current close strictly below it. -/
theorem get_signal_close_on_prediction_cross (st : Harmonic.FourierStrategy)
    (p : ℝ) (pos : Harmonic.Position)
    (hbuf : Harmonic.required_candles st.params ≤ st.data_buffer.length)
    (hpred : st.predicted_price = some p)
    (hpos : st.position = some pos)
    (hrang : st.indicators.is_ranging = some true)
    (hgate : st.indicators.atr.getD 0 * st.params.atr_multiplier ≤
      |(st.data_buffer.getLastD Harmonic.dummyCandle).close - p|)
    (hside :
      (pos.ptype = Harmonic.PosType.LONG ∧
        p < (st.data_buffer.getLastD Harmonic.dummyCandle).close) ∨
      (pos.ptype = Harmonic.PosType.SHORT ∧
        (st.data_buffer.getLastD Harmonic.dummyCandle).close < p)) :
    (Harmonic.get_signal st).signal = Signal.CLOSE := by
  have hnlt : ¬ st.data_buffer.length < Harmonic.required_candles st.params :=
    not_lt.mpr hbuf
  have hngate : ¬ |(st.data_buffer.getLastD Harmonic.dummyCandle).close - p| <
      st.indicators.atr.getD 0 * st.params.atr_multiplier := not_lt.mpr hgate
  rcases hside with ⟨hty, hlt⟩ | ⟨hty, hlt⟩ <;>
    · simp only [List.getLastD_eq_getLast?] at hngate hlt
      simp [Harmonic.get_signal, hnlt, hpred, hpos, hrang, hngate, hty, hlt]

/-- A candle whose prices all sit at 100.1. -/
noncomputable def c3Candle : Harmonic.Candle := ⟨1001/10, 1001/10, 1001/10, 1001/10, 0⟩

/-- Small parameters: lookback 2 and atr_period 1 give
required_candles = 22. -/
noncomputable def c3Params : Harmonic.Params := { lookback := 2, atr_period := 1 }

/-- 22 copies of the 100.1 candle. -/
noncomputable def c3Buf : List Harmonic.Candle := List.replicate 22 c3Candle

/-- A strategy state holding a LONG position with the close (100.1)
above the prediction (100), ranging flag set, but with the deviation
0.1 below the gate threshold atr x atr_multiplier = 0.5. -/
noncomputable def c3CexSt : Harmonic.FourierStrategy :=
  { params := c3Params
    data_buffer := c3Buf
    smoothed_prices := [1001/10, 1001/10]
    indicators := { atr := some 1, trend_strength := some 0, is_ranging := some true,
                    predicted_price := some 100, amplitude := some 2 }
    predicted_price := some 100
    position := some { ptype := Harmonic.PosType.LONG, entry_price := 100,
                       entry_time := 0 } }

/-- Counterexample to C3 as stated: in the state `c3CexSt` every
condition of the claim holds — LONG position set, buffer at
required_candles, a prediction exists, current close strictly above
it — yet `get_signal` returns HOLD, because the ranging/deviation gate
(here: deviation 0.1 < atr x atr_multiplier = 0.5) is evaluated before
the position branch and swallows the CLOSE. -/
theorem get_signal_gate_blocks_close :
    c3CexSt.position = some { ptype := Harmonic.PosType.LONG, entry_price := 100,
                              entry_time := 0 } ∧
    Harmonic.required_candles c3CexSt.params ≤ c3CexSt.data_buffer.length ∧
    c3CexSt.predicted_price = some 100 ∧
    (100 : ℝ) < (c3CexSt.data_buffer.getLastD Harmonic.dummyCandle).close ∧
    (Harmonic.get_signal c3CexSt).signal = Signal.HOLD := by
  have hlast : c3Buf.getLastD Harmonic.dummyCandle = c3Candle := rfl
  have hlen : c3Buf.length = 22 := rfl
  refine ⟨rfl, ?_, rfl, ?_, ?_⟩
  · simp [c3CexSt, c3Params, Harmonic.required_candles, hlen]
  · simp only [c3CexSt, hlast, c3Candle]
    norm_num
  · simp only [Harmonic.get_signal, c3CexSt, hlast, hlen, c3Candle, c3Params,
      Harmonic.required_candles]
    norm_num [abs_of_pos]

/-- A state ready for a CLOSE: like `c3CexSt` but with the close at
101, making the deviation 1 clear the 0.5 gate. -/
noncomputable def c3WitSt : Harmonic.FourierStrategy :=
  { params := c3Params
    data_buffer := List.replicate 22 (⟨101, 101, 101, 101, 0⟩ : Harmonic.Candle)
    smoothed_prices := [101, 101]
    indicators := { atr := some 1, trend_strength := some 0, is_ranging := some true,
                    predicted_price := some 100, amplitude := some 2 }
    predicted_price := some 100
    position := some { ptype := Harmonic.PosType.LONG, entry_price := 100,
                       entry_time := 0 } }

/-- Witness for C3's amended theorem: with the gate passing, the LONG
position and the close above the prediction produce CLOSE. -/
theorem get_signal_close_on_prediction_cross_witness :
    (Harmonic.get_signal c3WitSt).signal = Signal.CLOSE := by
  have hlast : c3WitSt.data_buffer.getLastD Harmonic.dummyCandle
      = (⟨101, 101, 101, 101, 0⟩ : Harmonic.Candle) := rfl
  refine get_signal_close_on_prediction_cross c3WitSt 100
    { ptype := Harmonic.PosType.LONG, entry_price := 100, entry_time := 0 }
    ?_ rfl rfl rfl ?_ ?_
  · norm_num [c3WitSt, c3Params, Harmonic.required_candles]
  · rw [hlast]
    norm_num [c3WitSt, c3Params]
  · left
    exact ⟨rfl, by rw [hlast]; norm_num⟩

namespace Harmonic

/-- Elements of a trailing slice come from the original list. -/
theorem takeLast_mem {α : Type} {n : ℕ} {l : List α} {x : α}
    (h : x ∈ takeLast n l) : x ∈ l :=
  List.drop_subset _ _ h

/-- Length of the trailing slice when the list is long enough. -/
theorem takeLast_length {α : Type} {n : ℕ} {l : List α} (h : n ≤ l.length) :
    (takeLast n l).length = n := by
  simp only [takeLast, List.length_drop]
  omega

/-- The dot product of a constant list with any equal-length weight
list is the constant times the weight sum. -/
theorem zipWith_const_sum (v : ℝ) :
    ∀ (l w : List ℝ), (∀ x ∈ l, x = v) → l.length = w.length →
      (List.zipWith (· * ·) l w).sum = v * w.sum := by
  intro l
  induction l with
  | nil =>
    intro w _ hlen
    cases w with
    | nil => simp
    | cons y ys => simp at hlen
  | cons x xs ih =>
    intro w h hlen
    cases w with
    | nil => simp at hlen
    | cons y ys =>
      have hx : x = v := h x (List.mem_cons_self x xs)
      have hxs : ∀ z ∈ xs, z = v := fun z hz => h z (List.mem_cons_of_mem x hz)
      simp only [List.zipWith_cons_cons, List.sum_cons]
      rw [ih ys hxs (by simpa using hlen), hx]
      ring

/-- The weights 1..n have positive sum for n ≥ 1. -/
theorem weightList_sum_pos (n : ℕ) (h : 0 < n) : 0 < (weightList n).sum := by
  apply List.sum_pos
  · intro x hx
    obtain ⟨i, _, rfl⟩ := List.mem_map.mp hx
    show (0 : ℝ) < (i : ℝ) + 1
    positivity
  · unfold weightList
    intro hmap
    have hr : List.range n = [] := List.map_eq_nil_iff.mp hmap
    have := List.range_eq_nil.mp hr
    omega

/-- The weight list has length n. -/
theorem weightList_length (n : ℕ) : (weightList n).length = n := by
  unfold weightList
  rw [List.length_map, List.length_range]

/-- The weighted moving average of a buffer whose closes all equal v
is v. -/
theorem smooth_price_const (p : Params) (buf : List Candle) (v : ℝ)
    (hsp : 0 < p.smooth_period) (hlen : p.smooth_period ≤ buf.length)
    (hc : ∀ x ∈ buf, x.close = v) : smooth_price p buf = v := by
  unfold smooth_price
  show (List.zipWith (· * ·) ((takeLast p.smooth_period buf).map (·.close))
      (weightList ((takeLast p.smooth_period buf).map (·.close)).length)).sum /
      (weightList ((takeLast p.smooth_period buf).map (·.close)).length).sum = v
  have hplen : ((takeLast p.smooth_period buf).map (·.close)).length = p.smooth_period := by
    rw [List.length_map, takeLast_length hlen]
  have hflat : ∀ x ∈ (takeLast p.smooth_period buf).map (·.close), x = v := by
    intro x hx
    obtain ⟨cnd, hmem, rfl⟩ := List.mem_map.mp hx
    exact hc cnd (takeLast_mem hmem)
  rw [zipWith_const_sum v _ _ hflat (by rw [hplen, weightList_length])]
  rw [hplen]
  have hpos := weightList_sum_pos p.smooth_period hsp
  rw [mul_div_assoc, div_self (ne_of_gt hpos), mul_one]

/-- Folding max over a constant list keeps the constant. -/
theorem foldl_max_const (v : ℝ) :
    ∀ (l : List ℝ) (acc : ℝ), (∀ x ∈ l, x = v) → acc = v → l.foldl max acc = v := by
  intro l
  induction l with
  | nil => intro acc _ hacc; exact hacc
  | cons x xs ih =>
    intro acc h hacc
    have hx : x = v := h x (List.mem_cons_self x xs)
    simp only [List.foldl_cons]
    exact ih _ (fun z hz => h z (List.mem_cons_of_mem x hz))
      (by rw [hacc, hx, max_self])

/-- Folding min over a constant list keeps the constant. -/
theorem foldl_min_const (v : ℝ) :
    ∀ (l : List ℝ) (acc : ℝ), (∀ x ∈ l, x = v) → acc = v → l.foldl min acc = v := by
  intro l
  induction l with
  | nil => intro acc _ hacc; exact hacc
  | cons x xs ih =>
    intro acc h hacc
    have hx : x = v := h x (List.mem_cons_self x xs)
    simp only [List.foldl_cons]
    exact ih _ (fun z hz => h z (List.mem_cons_of_mem x hz))
      (by rw [hacc, hx, min_self])

/-- np.max of a nonempty constant list. -/
theorem npMax_const (l : List ℝ) (v : ℝ) (hne : l ≠ []) (h : ∀ x ∈ l, x = v) :
    npMax l = v := by
  unfold npMax
  apply foldl_max_const v l _ h
  cases l with
  | nil => exact absurd rfl hne
  | cons x xs => exact h x (List.mem_cons_self x xs)

/-- np.min of a nonempty constant list. -/
theorem npMin_const (l : List ℝ) (v : ℝ) (hne : l ≠ []) (h : ∀ x ∈ l, x = v) :
    npMin l = v := by
  unfold npMin
  apply foldl_min_const v l _ h
  cases l with
  | nil => exact absurd rfl hne
  | cons x xs => exact h x (List.mem_cons_self x xs)

end Harmonic

namespace Harmonic

/-- The invariant maintained by a constant-close candle feed: every
buffered close and smoothed price equals v, any existing prediction
equals v, and no position is set. -/
def FlatState (v : ℝ) (st : FourierStrategy) : Prop :=
  (∀ x ∈ st.data_buffer, x.close = v) ∧
  (∀ s ∈ st.smoothed_prices, s = v) ∧
  (st.predicted_price = none ∨ st.predicted_price = some v) ∧
  st.position = none

/-- `_calculate_prediction` only writes the prediction fields. -/
theorem calculate_prediction_skeleton (st : FourierStrategy) :
    (calculate_prediction st).params = st.params ∧
    (calculate_prediction st).data_buffer = st.data_buffer ∧
    (calculate_prediction st).smoothed_prices = st.smoothed_prices ∧
    (calculate_prediction st).position = st.position :=
  ⟨rfl, rfl, rfl, rfl⟩

/-- On a flat smoothed series the amplitude is 0, so the predicted
price collapses to the midpoint, i.e. to the constant value. -/
theorem calculate_prediction_predicted (st : FourierStrategy) (v : ℝ)
    (hne : st.smoothed_prices ≠ []) (hsm : ∀ s ∈ st.smoothed_prices, s = v) :
    (calculate_prediction st).predicted_price = some v := by
  have h1 := npMax_const st.smoothed_prices v hne hsm
  have h2 := npMin_const st.smoothed_prices v hne hsm
  simp [calculate_prediction, h1, h2, add_self_div_two]

/-- `_calculate_indicators` leaves the core state untouched. -/
theorem calculate_indicators_skeleton (st : FourierStrategy) :
    (calculate_indicators st).params = st.params ∧
    (calculate_indicators st).data_buffer = st.data_buffer ∧
    (calculate_indicators st).smoothed_prices = st.smoothed_prices ∧
    (calculate_indicators st).position = st.position := by
  unfold calculate_indicators
  dsimp only
  split
  · exact ⟨rfl, rfl, rfl, rfl⟩
  · exact ⟨rfl, rfl, rfl, rfl⟩

/-- On a flat smoothed series `_calculate_indicators` leaves the
prediction either absent or equal to the constant. -/
theorem calculate_indicators_predicted (st : FourierStrategy) (v : ℝ)
    (hlb : 0 < st.params.lookback)
    (hsm : ∀ s ∈ st.smoothed_prices, s = v)
    (hpred : st.predicted_price = none ∨ st.predicted_price = some v) :
    (calculate_indicators st).predicted_price = none ∨
      (calculate_indicators st).predicted_price = some v := by
  unfold calculate_indicators
  dsimp only
  split
  · right
    apply calculate_prediction_predicted _ v
    · intro h0
      rename_i hcond
      rw [h0] at hcond
      simp at hcond
      omega
    · exact hsm
  · exact hpred

end Harmonic

namespace Harmonic

/-- The last element (with default) of a nonempty list is an element. -/
theorem getLastD_mem {α : Type} : ∀ (l : List α) (d : α), l ≠ [] → l.getLastD d ∈ l
  | [], _, h => absurd rfl h
  | [a], _, _ => by simp [List.getLastD]
  | a :: b :: bs, d, _ => by
    rw [List.getLastD_cons]
    exact List.mem_cons_of_mem a (getLastD_mem (b :: bs) a (by simp))

/-- Appending a flat candle keeps the buffer flat. -/
theorem update_append_flat (st : FourierStrategy) (c : Candle) (v : ℝ)
    (hbuf : ∀ x ∈ st.data_buffer, x.close = v) (hc : c.close = v) :
    ∀ x ∈ (update_append st c).data_buffer, x.close = v := by
  intro x hx
  rcases List.mem_append.mp hx with h | h
  · exact hbuf x h
  · rw [List.mem_singleton.mp h]; exact hc

/-- The trim step only touches the buffer. -/
theorem update_trim_skeleton (st : FourierStrategy) :
    (update_trim st).params = st.params ∧
    (update_trim st).smoothed_prices = st.smoothed_prices ∧
    (update_trim st).predicted_price = st.predicted_price ∧
    (update_trim st).position = st.position := by
  unfold update_trim
  dsimp only
  split
  · exact ⟨rfl, rfl, rfl, rfl⟩
  · exact ⟨rfl, rfl, rfl, rfl⟩

/-- The trim step keeps a flat buffer flat. -/
theorem update_trim_buffer_flat (st : FourierStrategy) (v : ℝ)
    (h : ∀ x ∈ st.data_buffer, x.close = v) :
    ∀ x ∈ (update_trim st).data_buffer, x.close = v := by
  unfold update_trim
  dsimp only
  split
  · intro x hx
    exact h x (takeLast_mem hx)
  · exact h

/-- The smoothing step only touches the smoothed series. -/
theorem update_smooth_skeleton (st : FourierStrategy) :
    (update_smooth st).params = st.params ∧
    (update_smooth st).data_buffer = st.data_buffer ∧
    (update_smooth st).predicted_price = st.predicted_price ∧
    (update_smooth st).position = st.position := by
  unfold update_smooth
  dsimp only
  split
  · split
    · exact ⟨rfl, rfl, rfl, rfl⟩
    · exact ⟨rfl, rfl, rfl, rfl⟩
  · exact ⟨rfl, rfl, rfl, rfl⟩

/-- Over a flat buffer the smoothing step appends the constant and
keeps the series flat. -/
theorem update_smooth_smoothed_flat (st : FourierStrategy) (v : ℝ)
    (hsp : 0 < st.params.smooth_period)
    (hbuf : ∀ x ∈ st.data_buffer, x.close = v)
    (hsm : ∀ s ∈ st.smoothed_prices, s = v) :
    ∀ s ∈ (update_smooth st).smoothed_prices, s = v := by
  unfold update_smooth
  dsimp only
  split
  · rename_i hcond
    have hnew : smooth_price st.params st.data_buffer = v :=
      smooth_price_const _ _ v hsp hcond hbuf
    split
    · intro s hs
      rcases List.mem_append.mp (takeLast_mem hs) with h | h
      · exact hsm s h
      · rw [List.mem_singleton.mp h]; exact hnew
    · intro s hs
      rcases List.mem_append.mp hs with h | h
      · exact hsm s h
      · rw [List.mem_singleton.mp h]; exact hnew
  · exact hsm

/-- The indicator step only touches the indicators and the
prediction. -/
theorem update_indicators_skeleton (st : FourierStrategy) :
    (update_indicators st).params = st.params ∧
    (update_indicators st).data_buffer = st.data_buffer ∧
    (update_indicators st).smoothed_prices = st.smoothed_prices ∧
    (update_indicators st).position = st.position := by
  unfold update_indicators
  split
  · exact calculate_indicators_skeleton st
  · exact ⟨rfl, rfl, rfl, rfl⟩

/-- The indicator step keeps the prediction flat. -/
theorem update_indicators_predicted (st : FourierStrategy) (v : ℝ)
    (hlb : 0 < st.params.lookback)
    (hsm : ∀ s ∈ st.smoothed_prices, s = v)
    (hpred : st.predicted_price = none ∨ st.predicted_price = some v) :
    (update_indicators st).predicted_price = none ∨
      (update_indicators st).predicted_price = some v := by
  unfold update_indicators
  split
  · exact calculate_indicators_predicted st v hlb hsm hpred
  · exact hpred

/-- One flat candle keeps a flat strategy state flat (and leaves the
parameters untouched). -/
theorem update_flat (st : FourierStrategy) (c : Candle) (v : ℝ)
    (hsp : 0 < st.params.smooth_period) (hlb : 0 < st.params.lookback)
    (hst : FlatState v st) (hc : c.close = v) :
    (update st c none).params = st.params ∧ FlatState v (update st c none) := by
  obtain ⟨hbuf, hsm, hpred, hpos⟩ := hst
  have t1buf := update_append_flat st c v hbuf hc
  have t2buf := update_trim_buffer_flat (update_append st c) v t1buf
  have t2sk := update_trim_skeleton (update_append st c)
  have hsp2 : 0 < (update_trim (update_append st c)).params.smooth_period := by
    rw [t2sk.1]; exact hsp
  have t2sm : ∀ s ∈ (update_trim (update_append st c)).smoothed_prices, s = v := by
    rw [t2sk.2.1]; exact hsm
  have t3sm := update_smooth_smoothed_flat (update_trim (update_append st c)) v
    hsp2 t2buf t2sm
  have t3sk := update_smooth_skeleton (update_trim (update_append st c))
  have t3buf : ∀ x ∈ (update_smooth (update_trim (update_append st c))).data_buffer,
      x.close = v := by
    rw [t3sk.2.1]; exact t2buf
  have t3pred : (update_smooth (update_trim (update_append st c))).predicted_price = none ∨
      (update_smooth (update_trim (update_append st c))).predicted_price = some v := by
    rw [t3sk.2.2.1, t2sk.2.2.1]; exact hpred
  have t3pos : (update_smooth (update_trim (update_append st c))).position = none := by
    rw [t3sk.2.2.2, t2sk.2.2.2]; exact hpos
  have t3params : (update_smooth (update_trim (update_append st c))).params = st.params := by
    rw [t3sk.1, t2sk.1]; rfl
  have hlb3 : 0 < (update_smooth (update_trim (update_append st c))).params.lookback := by
    rw [t3params]; exact hlb
  have t4sk := update_indicators_skeleton (update_smooth (update_trim (update_append st c)))
  have t4pred := update_indicators_predicted
    (update_smooth (update_trim (update_append st c))) v hlb3 t3sm t3pred
  refine ⟨?_, ?_, ?_, ?_, ?_⟩
  · show (update_indicators (update_smooth (update_trim (update_append st c)))).params
      = st.params
    rw [t4sk.1, t3params]
  · show ∀ x ∈ (update_indicators (update_smooth (update_trim
      (update_append st c)))).data_buffer, x.close = v
    rw [t4sk.2.1]; exact t3buf
  · show ∀ s ∈ (update_indicators (update_smooth (update_trim
      (update_append st c)))).smoothed_prices, s = v
    rw [t4sk.2.2.1]; exact t3sm
  · exact t4pred
  · show (update_indicators (update_smooth (update_trim (update_append st c)))).position
      = none
    rw [t4sk.2.2.2]; exact t3pos

end Harmonic

namespace Harmonic

/-- On any flat state `get_signal` returns HOLD: before the lookback or
without a prediction trivially; otherwise the deviation is 0, so either
the ranging/deviation gate fires, or the gate passes and both strict
entry comparisons fail because the predicted price equals the current
price. -/
theorem get_signal_flat (st : FourierStrategy) (v : ℝ) (hst : FlatState v st) :
    (get_signal st).signal = Signal.HOLD := by
  obtain ⟨hbuf, hsm, hpred, hpos⟩ := hst
  by_cases hlen : st.data_buffer.length < required_candles st.params
  · simp [get_signal, hlen]
  · rcases hpred with hnone | hsome
    · simp [get_signal, hlen, hnone]
    · have hne : st.data_buffer ≠ [] := by
        intro h0
        rw [h0] at hlen
        have hposreq : 0 < required_candles st.params :=
          Nat.lt_of_lt_of_le (by norm_num : (0:ℕ) < 20)
            (Nat.le_add_left 20 (max st.params.lookback st.params.atr_period))
        simp at hlen
        omega
      have hcur : (st.data_buffer.getLastD dummyCandle).close = v :=
        hbuf _ (getLastD_mem st.data_buffer dummyCandle hne)
      simp only [List.getLastD_eq_getLast?] at hcur
      cases hb : st.indicators.is_ranging.getD false
      · simp [get_signal, hlen, hsome, hb]
      · by_cases hm : (0:ℝ) < st.indicators.atr.getD 0 * st.params.atr_multiplier
        · simp [get_signal, hlen, hsome, hb, hcur, hm]
        · simp [get_signal, hlen, hsome, hb, hcur, hm, hpos]

end Harmonic

/-- C6: feeding `FourierStrategy` any sequence of candles whose closes
all equal v (with sane positive smooth_period and lookback parameters)
never yields BUY or SELL: after every prefix of updates the signal is
HOLD, since the flat smoothed series gives amplitude 0, phase 0, and a
predicted price equal to the current price. -/
theorem flat_closes_never_signal (p : Harmonic.Params) (v : ℝ)
    (cs : List Harmonic.Candle)
    (hsp : 0 < p.smooth_period) (hlb : 0 < p.lookback)
    (hflat : ∀ c ∈ cs, c.close = v) :
    (Harmonic.get_signal (cs.foldl (fun st c => Harmonic.update st c none)
        (Harmonic.initState p))).signal = Signal.HOLD := by
  have hinv : ∀ (l : List Harmonic.Candle) (st : Harmonic.FourierStrategy),
      st.params = p → Harmonic.FlatState v st → (∀ c ∈ l, c.close = v) →
      (l.foldl (fun st c => Harmonic.update st c none) st).params = p ∧
      Harmonic.FlatState v (l.foldl (fun st c => Harmonic.update st c none) st) := by
    intro l
    induction l with
    | nil => intro st hp hf _; exact ⟨hp, hf⟩
    | cons c t ih =>
      intro st hp hf hl
      rw [List.foldl_cons]
      have hstep := Harmonic.update_flat st c v (by rw [hp]; exact hsp)
        (by rw [hp]; exact hlb) hf (hl c (List.mem_cons_self c t))
      exact ih _ (by rw [hstep.1, hp]) hstep.2
        (fun x hx => hl x (List.mem_cons_of_mem c hx))
  have hinit : Harmonic.FlatState v (Harmonic.initState p) :=
    ⟨(by intro x hx; cases hx), (by intro s hs; cases hs), Or.inl rfl, rfl⟩
  exact Harmonic.get_signal_flat _ v (hinv cs (Harmonic.initState p) rfl hinit hflat).2

/-- Witness for C6 at the default parameters and a single flat candle
at close 100. -/
theorem flat_closes_never_signal_witness :
    (Harmonic.get_signal (([⟨100, 100, 100, 100, 0⟩] : List Harmonic.Candle).foldl
        (fun st c => Harmonic.update st c none)
        (Harmonic.initState {}))).signal = Signal.HOLD :=
  flat_closes_never_signal {} 100 [⟨100, 100, 100, 100, 0⟩] (by norm_num) (by norm_num)
    (by intro c hc; rw [List.mem_singleton.mp hc])
